import Mathlib

/-!
Verification of the core logic of `sredd` (`src/main.go`, final revision, v0.4).

Strings are modelled as `List Char` (`Str`): the Go code manipulates URLs and
file contents only through character-level operations (newline splitting,
substring search, prefix matching), which this embedding reproduces directly.

The per-feed state file is modelled as an optional `Str` (its full content;
`none` when the file does not exist), and the orchestrator's filesystem as an
association list from file paths to contents.
-/

namespace Sredd

/-- Strings as character lists. -/
abbrev Str := List Char

/-! ### State file format: what `bufio.Scanner` reads and `bufio.Writer` writes

`checkNew` reads the log file with a `bufio.Scanner` using the default
`ScanLines` split function: each token is a maximal run of characters up to
(and excluding) a `'\n'`, with one terminal `'\r'` dropped from the token; at
end of input, a non-empty remainder is one final token (with the same `'\r'`
treatment) and an empty remainder yields no token.  It writes the file as each
URL followed by `"\n"`. -/

/-- Drop one terminal carriage return, as `bufio.ScanLines`' `dropCR` does. -/
def dropCR (line : Str) : Str :=
  match line.getLast? with
  | some c => if c = '\r' then line.dropLast else line
  | none => line

/-- Scanner loop: `cur` is the current (not yet terminated) line read so far,
the second argument is the remaining input. -/
def scanLinesAux (cur : Str) : Str → List Str
  | [] => if cur.isEmpty then [] else [dropCR cur]
  | c :: rest =>
      if c = '\n' then dropCR cur :: scanLinesAux [] rest
      else scanLinesAux (cur ++ [c]) rest

/-- All lines of a file content, per `bufio.Scanner` with `ScanLines`. -/
def scanLines (text : Str) : List Str :=
  scanLinesAux [] text

/-- File content produced by the write phase of `checkNew`
(`writer.WriteString(fmt.Sprintf("%s\n", url))` for each url). -/
def writeContent (urls : List Str) : Str :=
  match urls with
  | [] => []
  | u :: rest => u ++ '\n' :: writeContent rest

/-! ### `checkNew` (State Store) -/

/-- The inner loop of `checkNew`'s compare phase: `dup` starts at `0` and is
set to `1` whenever `url` equals an old URL; modelled as a Boolean fold. -/
def isDup (url : Str) (oldURLs : List Str) : Bool :=
  oldURLs.foldl (fun dup oldURL => if url = oldURL then true else dup) false

/-- The compare phase of `checkNew`: each `url` of `urls`, in order, is
appended to the result exactly when `dup == 0` for it. -/
def diffURLs : List Str → List Str → List Str
  | [], _ => []
  | url :: rest, oldURLs =>
      if isDup url oldURLs then diffURLs rest oldURLs
      else url :: diffURLs rest oldURLs

/-- The read phase of `checkNew`: if `os.Stat` reports no file, `oldURLs`
stays empty (not an error); otherwise the file's lines are scanned in. -/
def readOldURLs (prev : Option Str) : List Str :=
  match prev with
  | none => []
  | some content => scanLines content

/-- `checkNew name urls` from `src/main.go` (I/O abstracted: `prev` is the
state file's content, or `none` when it does not exist).  Returns the list of
new URLs together with the content written back to the state file.  The Go
function's only other outcomes are propagated I/O errors (open/scan/create/
flush failures), which the pure model does not produce. -/
def checkNew (prev : Option Str) (urls : List Str) : List Str × Str :=
  (diffURLs urls (readOldURLs prev), writeContent urls)

/-! ### `checkSub` (Feed Fetcher), post-processing loop

The network fetch, status check and JSON decoding are I/O; the loop over
`sub.Data.Children` is pure and is embedded here over the decoded item URLs. -/

/-- `strings.Contains s pat`: does `pat` occur as a contiguous substring of
`s`?  (Go's implementation searches an occurrence; this is the same
predicate, checked position by position.) -/
def strContains : Str → Str → Bool
  | [], pat => pat.isPrefixOf ([] : Str)
  | c :: t, pat => pat.isPrefixOf (c :: t) || strContains t pat

/-- `regexp.MatchString "^https?://" u`: the anchored pattern matches exactly
when `u` starts with `http://` or with `https://`. -/
def matchHTTP (u : Str) : Bool :=
  "http://".toList.isPrefixOf u || "https://".toList.isPrefixOf u

/-- The marker substring identifying discussion-thread links. -/
def commentsMarker : Str := "/comments/".toList

/-- The item loop of `checkSub`: an item is skipped when `FilterComments` is
set and its URL contains `/comments/`; it is skipped when it does not match
`^https?://`; otherwise it is appended unchanged. -/
def checkSubFilter (filterComments : Bool) : List Str → List Str
  | [] => []
  | itemURL :: rest =>
      if filterComments && strContains itemURL commentsMarker then
        checkSubFilter filterComments rest
      else if matchHTTP itemURL then
        itemURL :: checkSubFilter filterComments rest
      else
        checkSubFilter filterComments rest

/-! ### `main` (Run Orchestrator) -/

/-- Observable console/terminal events of one run of `main`. -/
inductive Event where
  /-- `Checking r/<name> for new posts...` -/
  | checking (name : Str)
  /-- `No new posts found!` -/
  | noNewPosts
  /-- the blank line printed between feed blocks -/
  | blankLine
  /-- `execCommand`: the `URL: <url>` lines and the external command run -/
  | invoke (urls : List Str)
  /-- the `Press 'Return' key...` prompt and the blocking `ReadPassword` -/
  | pause
  /-- an error report on standard error -/
  | errorMsg (msg : Str)
  deriving DecidableEq

/-- Filesystem: association list from file path to file content. -/
abbrev FS := List (Str × Str)

/-- Content of the file at `path`, or `none` if absent. -/
def fsRead : FS → Str → Option Str
  | [], _ => none
  | (k, v) :: rest, path => if path = k then some v else fsRead rest path

/-- Overwrite (or create) the file at `path` with `content`. -/
def fsWrite : FS → Str → Str → FS
  | [], path, content => [(path, content)]
  | (k, v) :: rest, path, content =>
      if path = k then (k, content) :: rest
      else (k, v) :: fsWrite rest path content

/-- The state file path `fmt.Sprintf("%s/r_%s.log", config.ProgramPath, name)`. -/
def logPath (dir name : Str) : Str :=
  dir ++ "/r_".toList ++ name ++ ".log".toList

/-- Result of (the rest of) a run: final filesystem, events in order, and the
process exit code (`os.Exit(1)` on a fatal error, `0` when the loop ends). -/
structure RunResult where
  fs : FS
  events : List Event
  exitCode : Nat
  deriving DecidableEq

/-- The feed loop of `main`, from a given remaining feed list.  `fetch`
abstracts `checkSub` (network I/O), `execCmd` abstracts the external command
run by `execCommand` (its printing is part of `Event.invoke`).  Go's
`index == len(config.Subreddits)-1` test holds exactly when `rest = []`.
`checkNew`'s I/O error paths do not arise in the pure filesystem model. -/
def mainLoop (fetch : Str → Except Str (List Str))
    (execCmd : List Str → Except Str Unit) (dir : Str) :
    List Str → FS → RunResult
  | [], fs => ⟨fs, [], 0⟩
  | name :: rest, fs =>
      match fetch name with
      | .error e => ⟨fs, [.checking name, .errorMsg e], 1⟩
      | .ok urls =>
          let res := checkNew (fsRead fs (logPath dir name)) urls
          let fs2 := fsWrite fs (logPath dir name) res.2
          if res.1 = [] then
            let r := mainLoop fetch execCmd dir rest fs2
            if rest = [] then
              ⟨r.fs, .checking name :: .noNewPosts :: r.events, r.exitCode⟩
            else
              ⟨r.fs, .checking name :: .noNewPosts :: .blankLine :: r.events,
                r.exitCode⟩
          else
            match execCmd res.1 with
            | .error e => ⟨fs2, [.checking name, .invoke res.1, .errorMsg e], 1⟩
            | .ok _ =>
                if rest = [] then ⟨fs2, [.checking name, .invoke res.1], 0⟩
                else
                  let r := mainLoop fetch execCmd dir rest fs2
                  ⟨r.fs, .checking name :: .invoke res.1 :: .pause :: r.events,
                    r.exitCode⟩

/-- A full run of `main` over the configured subreddit list. -/
def runMain (fetch : Str → Except Str (List Str))
    (execCmd : List Str → Except Str Unit) (dir : Str)
    (subreddits : List Str) (fs : FS) : RunResult :=
  mainLoop fetch execCmd dir subreddits fs

/-- Holds of an event trace when every `pause` event is immediately followed
by a `checking` event, i.e. pausing only ever happens right before another
feed is processed — never after the last feed. -/
def pauseAlwaysBeforeChecking : List Event → Bool
  | [] => true
  | .pause :: rest =>
      match rest with
      | .checking _ :: _ => pauseAlwaysBeforeChecking rest
      | _ => false
  | _ :: rest => pauseAlwaysBeforeChecking rest

/-- A concrete fetcher for two feeds: `alpha` returns no items, every other
feed returns one item. -/
def fetchTwo : Str → Except Str (List Str) :=
  fun n => if n = "alpha".toList then .ok [] else .ok ["https://u".toList]

/-- A concrete external command that always succeeds. -/
def execOk : List Str → Except Str Unit := fun _ => .ok ()

/-- A concrete fetcher whose every fetch fails with an HTTP 503 status. -/
def fetch503 : Str → Except Str (List Str) :=
  fun _ => .error "503 Service Unavailable".toList

/-! ### Lemmas: the diff phase of `checkNew` -/

theorem contains_eq_decide (l : List Str) (u : Str) :
    l.contains u = decide (u ∈ l) := by
  simp [List.contains, List.elem_eq_mem]

theorem isDup_foldl (u : Str) (l : List Str) (b : Bool) :
    l.foldl (fun dup oldURL => if u = oldURL then true else dup) b
      = (b || decide (u ∈ l)) := by
  induction l generalizing b with
  | nil => simp
  | cons a t ih =>
      rw [List.foldl_cons, ih]
      by_cases h : u = a <;> simp [h]

theorem isDup_eq_contains (u : Str) (l : List Str) : isDup u l = l.contains u := by
  rw [isDup, isDup_foldl, contains_eq_decide]
  simp

theorem diffURLs_eq_filter (urls old : List Str) :
    diffURLs urls old = urls.filter (fun u => !(old.contains u)) := by
  induction urls with
  | nil => rfl
  | cons u rest ih =>
      simp only [diffURLs, isDup_eq_contains, List.filter_cons, ih]
      by_cases h : u ∈ old <;> simp [contains_eq_decide, h]

theorem diffURLs_count (urls old : List Str) (u : Str) :
    (diffURLs urls old).count u = if old.contains u then 0 else urls.count u := by
  rw [diffURLs_eq_filter]
  by_cases h : u ∈ old
  · have hne : u ∉ urls.filter (fun v => !(old.contains v)) := by
      intro hmem
      rcases List.mem_filter.mp hmem with ⟨_, hp⟩
      simp [contains_eq_decide, h] at hp
    rw [List.count_eq_zero.mpr hne]
    simp [contains_eq_decide, h]
  · rw [List.count_filter (by simp [contains_eq_decide, h])]
    simp [contains_eq_decide, h]

theorem diffURLs_nil_old (urls : List Str) : diffURLs urls [] = urls := by
  induction urls with
  | nil => rfl
  | cons u rest ih => simp [diffURLs, isDup, ih]

theorem diffURLs_subset_nil (urls old : List Str) (h : ∀ u ∈ urls, u ∈ old) :
    diffURLs urls old = [] := by
  rw [diffURLs_eq_filter]
  refine List.filter_eq_nil_iff.mpr fun a ha => ?_
  simp [contains_eq_decide, h a ha]

/-! ### Lemmas: the state file round trip -/

theorem dropCR_of_not_cr (u : Str) (h : u.getLast? ≠ some '\r') : dropCR u = u := by
  rw [dropCR]
  split
  next c heq =>
    have hc : c ≠ '\r' := by
      intro hc
      exact h (by rw [heq, hc])
    simp [hc]
  next => rfl

theorem scanLinesAux_line (u : Str) : ∀ cur rest : Str, '\n' ∉ u →
    scanLinesAux cur (u ++ '\n' :: rest)
      = dropCR (cur ++ u) :: scanLinesAux [] rest := by
  induction u with
  | nil =>
      intro cur rest _
      simp [scanLinesAux]
  | cons a t ih =>
      intro cur rest hu
      have ha : a ≠ '\n' := fun h => hu (h ▸ List.mem_cons_self a t)
      have ht : '\n' ∉ t := fun h => hu (List.mem_cons_of_mem a h)
      rw [List.cons_append, scanLinesAux, if_neg ha, ih (cur ++ [a]) rest ht]
      simp

theorem scanLines_writeContent (urls : List Str)
    (h : ∀ u ∈ urls, ('\n' ∉ u) ∧ u.getLast? ≠ some '\r') :
    scanLines (writeContent urls) = urls := by
  induction urls with
  | nil => rfl
  | cons u rest ih =>
      have hu := h u (List.mem_cons_self u rest)
      rw [writeContent, scanLines, scanLinesAux_line u [] (writeContent rest) hu.1,
        List.nil_append, dropCR_of_not_cr u hu.2]
      exact congrArg (u :: ·) (ih fun v hv => h v (List.mem_cons_of_mem u hv))

/-! ### Claim theorems -/

/-- C1: the result of `checkNew` is exactly the order-preserving subsequence
of `urls` of those occurrences whose URL does not appear anywhere in the
previous set read from the state file; in particular each URL absent from the
previous set keeps its full multiplicity (no deduplication within `urls`). -/
theorem checkNew_diff_is_membership_filter (prev : Option Str) (urls : List Str) :
    (checkNew prev urls).1
        = urls.filter (fun u => !((readOldURLs prev).contains u)) ∧
    ∀ u : Str, ((checkNew prev urls).1).count u
        = if (readOldURLs prev).contains u then 0 else urls.count u :=
  ⟨diffURLs_eq_filter urls _, fun u => diffURLs_count urls _ u⟩

/-- C2: with no prior state file (`prev = none`) `checkNew` succeeds and
returns the full current list unchanged, in original order (and writes the
current list to the state file). -/
theorem checkNew_no_state_file (urls : List Str) :
    checkNew none urls = (urls, writeContent urls) := by
  simp [checkNew, readOldURLs, diffURLs_nil_old]

/-- C10: for an empty `urls` list, `checkNew` succeeds, returns an empty
result, and overwrites the state file with empty content — so a following
run reports every fetched URL as new. -/
theorem checkNew_empty_current (prev : Option Str) (urls2 : List Str) :
    (checkNew prev []).1 = [] ∧ (checkNew prev []).2 = [] ∧
    (checkNew (some ((checkNew prev []).2)) urls2).1 = urls2 := by
  refine ⟨rfl, rfl, ?_⟩
  show diffURLs urls2 (readOldURLs (some (writeContent []))) = urls2
  simp [readOldURLs, writeContent, scanLines, scanLinesAux, diffURLs_nil_old]

/-- C3 (amended): when no current URL contains a newline or ends with a
carriage return, a second `checkNew` run on the state file just written with
the same `urls` yields an empty result; and, for any previous state, whenever
every URL of `urls` appears in the previous set the result is empty. -/
theorem checkNew_rerun_empty (prev prev2 : Option Str) (urls : List Str) :
    ((∀ u ∈ urls, ('\n' ∉ u) ∧ u.getLast? ≠ some '\r') →
      (checkNew (some ((checkNew prev urls).2)) urls).1 = []) ∧
    ((∀ u ∈ urls, u ∈ readOldURLs prev2) → (checkNew prev2 urls).1 = []) := by
  constructor
  · intro h
    show diffURLs urls (readOldURLs (some (writeContent urls))) = []
    rw [show readOldURLs (some (writeContent urls))
          = scanLines (writeContent urls) from rfl,
      scanLines_writeContent urls h]
    exact diffURLs_subset_nil urls urls fun u hu => hu
  · intro h
    exact diffURLs_subset_nil urls _ h

/-- Witness for C3 (amended) at a concrete feed history. -/
theorem checkNew_rerun_empty_witness :
    (checkNew (some ((checkNew none ["https://a".toList]).2))
        ["https://a".toList]).1 = [] ∧
    (checkNew (some "https://a\n".toList) ["https://a".toList]).1 = [] :=
  ⟨(checkNew_rerun_empty none (some "https://a\n".toList)
      ["https://a".toList]).1 (by decide),
   (checkNew_rerun_empty none (some "https://a\n".toList)
      ["https://a".toList]).2 (by decide)⟩

/-- Counterexample to C3 as stated: for a current URL containing a newline
character, the second of two successive `checkNew` runs with the same `urls`
is not empty — the written line splits into two on read-back. -/
theorem checkNew_rerun_newline_cex :
    (checkNew (some ((checkNew none ["https://x\nhttps://y".toList]).2))
        ["https://x\nhttps://y".toList]).1
      = ["https://x\nhttps://y".toList] ∧
    (["https://x\nhttps://y".toList] : List Str) ≠ [] :=
  ⟨by decide, by decide⟩

/-- C9 (amended): when no URL contains a newline or ends with a carriage
return, the state file written by `checkNew` is read back by the next run as
exactly `urls`, in order. -/
theorem checkNew_roundtrip (prev : Option Str) (urls : List Str)
    (h : ∀ u ∈ urls, ('\n' ∉ u) ∧ u.getLast? ≠ some '\r') :
    readOldURLs (some ((checkNew prev urls).2)) = urls :=
  scanLines_writeContent urls h

/-- Witness for C9 (amended) at a concrete URL list. -/
theorem checkNew_roundtrip_witness :
    readOldURLs (some ((checkNew none
        ["https://a".toList, "https://b".toList]).2))
      = ["https://a".toList, "https://b".toList] :=
  checkNew_roundtrip none ["https://a".toList, "https://b".toList] (by decide)

/-- Counterexample to C9 as stated: a URL that ends with a carriage return
(and contains no newline) is read back without it — `bufio.ScanLines` strips
one terminal carriage return from every line. -/
theorem checkNew_roundtrip_cr_cex :
    ('\n' ∉ "https://x\r".toList) ∧
    readOldURLs (some ((checkNew none ["https://x\r".toList]).2))
      = ["https://x".toList] ∧
    readOldURLs (some ((checkNew none ["https://x\r".toList]).2))
      ≠ ["https://x\r".toList] :=
  ⟨by decide, by decide, by decide⟩

/-! ### Lemmas: the fetcher's item loop -/

theorem checkSubFilter_eq_filter (fc : Bool) (items : List Str) :
    checkSubFilter fc items = items.filter
      (fun u => !(fc && strContains u commentsMarker) && matchHTTP u) := by
  induction items with
  | nil => rfl
  | cons u rest ih =>
      rw [checkSubFilter, List.filter_cons]
      by_cases h1 : (fc && strContains u commentsMarker) = true
      · simp [h1, ih]
      · by_cases h2 : matchHTTP u = true <;> simp [h1, h2, ih]

/-- C5 (amended): item URLs surviving the fetcher's filters are returned
verbatim — the loop performs no rewriting of the URL, in particular no
`&amp;` → `&` replacement; every returned URL is literally an element of the
decoded input. -/
theorem checkSub_urls_verbatim (fc : Bool) (items : List Str) :
    checkSubFilter fc items = items.filter
        (fun u => !(fc && strContains u commentsMarker) && matchHTTP u) ∧
    (checkSubFilter fc items).all (fun u => items.contains u) = true := by
  refine ⟨checkSubFilter_eq_filter fc items, ?_⟩
  rw [checkSubFilter_eq_filter, List.all_eq_true]
  intro u hu
  rcases List.mem_filter.mp hu with ⟨hm, _⟩
  simp [contains_eq_decide, hm]

/-- Counterexample to C5 as stated: a surviving item URL containing `&amp;`
is returned with the `&amp;` intact, not replaced by `&`. -/
theorem checkSub_no_amp_replacement_cex :
    checkSubFilter false ["https://e.com/foo&amp;bar".toList]
      = ["https://e.com/foo&amp;bar".toList] ∧
    strContains "https://e.com/foo&amp;bar".toList "&amp;".toList = true ∧
    checkSubFilter false ["https://e.com/foo&amp;bar".toList]
      ≠ ["https://e.com/foo&bar".toList] :=
  ⟨by decide, by decide, by decide⟩

/-- C7: with `FilterComments = true` every fetched item URL containing
`/comments/` is excluded from the result; with `FilterComments = false` an
item URL is included exactly as often as it occurs, provided it passes the
`http://`/`https://` prefix check (and items failing it are dropped). -/
theorem checkSub_comments_filter (items : List Str) :
    (checkSubFilter true items).all
        (fun v => !(strContains v commentsMarker)) = true ∧
    ∀ u : Str, (checkSubFilter false items).count u
      = if matchHTTP u then items.count u else 0 := by
  constructor
  · rw [checkSubFilter_eq_filter, List.all_eq_true]
    intro v hv
    rcases List.mem_filter.mp hv with ⟨_, hp⟩
    simp only [Bool.true_and, Bool.and_eq_true, Bool.not_eq_true'] at hp
    simp [hp.1]
  · intro u
    rw [checkSubFilter_eq_filter]
    by_cases hm : matchHTTP u = true
    · rw [List.count_filter (by simp [hm])]
      simp [hm]
    · have hne : u ∉ items.filter
          (fun v => !(false && strContains v commentsMarker) && matchHTTP v) := by
        intro hmem
        rcases List.mem_filter.mp hmem with ⟨_, hp⟩
        simp [hm] at hp
      rw [List.count_eq_zero.mpr hne]
      simp [hm]

/-! ### Orchestrator claims -/

/-- C4: when the fetch for a feed fails (e.g. a non-200 status such as 503),
the run reports the error and terminates immediately with exit code 1,
processes no further feeds, and leaves the filesystem — in particular that
feed's persisted state file — exactly as it was. -/
theorem run_aborts_on_fetch_error (fetch : Str → Except Str (List Str))
    (execCmd : List Str → Except Str Unit) (dir name : Str)
    (rest : List Str) (fs : FS) (e : Str) (h : fetch name = .error e) :
    runMain fetch execCmd dir (name :: rest) fs
      = ⟨fs, [.checking name, .errorMsg e], 1⟩ := by
  simp [runMain, mainLoop, h]

/-- Witness for C4: a 503 failure on the first of two feeds, with the feed's
previous state file present and preserved byte for byte. -/
theorem run_aborts_on_fetch_error_witness :
    runMain fetch503 execOk "/home/user/.sredd".toList
        ["alpha".toList, "beta".toList]
        [(logPath "/home/user/.sredd".toList "alpha".toList,
          "https://old\n".toList)]
      = ⟨[(logPath "/home/user/.sredd".toList "alpha".toList,
            "https://old\n".toList)],
          [.checking "alpha".toList,
            .errorMsg "503 Service Unavailable".toList], 1⟩ :=
  run_aborts_on_fetch_error fetch503 execOk "/home/user/.sredd".toList
    "alpha".toList ["beta".toList]
    [(logPath "/home/user/.sredd".toList "alpha".toList,
      "https://old\n".toList)]
    "503 Service Unavailable".toList rfl

/-- C6 (amended): a feed with no new items and feeds still remaining prints
the no-new-posts notice and the blank separator line, then proceeds directly
to the next feed — the pausing state (the blocking terminal read) is not
entered on this path. -/
theorem idle_feed_proceeds_without_pause (fetch : Str → Except Str (List Str))
    (execCmd : List Str → Except Str Unit) (dir name : Str) (rest : List Str)
    (fs : FS) (urls : List Str) (hf : fetch name = .ok urls)
    (hempty : (checkNew (fsRead fs (logPath dir name)) urls).1 = [])
    (hrest : rest ≠ []) :
    runMain fetch execCmd dir (name :: rest) fs
      = { fs := (runMain fetch execCmd dir rest
            (fsWrite fs (logPath dir name) (writeContent urls))).fs,
          events := .checking name :: .noNewPosts :: .blankLine ::
            (runMain fetch execCmd dir rest
              (fsWrite fs (logPath dir name) (writeContent urls))).events,
          exitCode := (runMain fetch execCmd dir rest
            (fsWrite fs (logPath dir name) (writeContent urls))).exitCode } := by
  simp [runMain, mainLoop, hf, hempty, hrest]
  exact ⟨rfl, rfl, rfl⟩

/-- Witness for C6 (amended): two feeds, the first yielding no items. -/
theorem idle_feed_proceeds_without_pause_witness :
    runMain fetchTwo execOk "/d".toList ["alpha".toList, "beta".toList] []
      = { fs := (runMain fetchTwo execOk "/d".toList ["beta".toList]
            (fsWrite [] (logPath "/d".toList "alpha".toList)
              (writeContent []))).fs,
          events := .checking "alpha".toList :: .noNewPosts :: .blankLine ::
            (runMain fetchTwo execOk "/d".toList ["beta".toList]
              (fsWrite [] (logPath "/d".toList "alpha".toList)
                (writeContent []))).events,
          exitCode := (runMain fetchTwo execOk "/d".toList ["beta".toList]
            (fsWrite [] (logPath "/d".toList "alpha".toList)
              (writeContent []))).exitCode } :=
  idle_feed_proceeds_without_pause fetchTwo execOk "/d".toList "alpha".toList
    ["beta".toList] [] [] rfl (by decide) (by decide)

/-- Counterexample to C6 as stated: in a two-feed run whose first feed yields
no new items, the no-new-posts notice is printed but no pause event occurs
anywhere in the run — the idle path `continue`s without the blocking read. -/
theorem idle_feed_no_pause_cex :
    (runMain fetchTwo execOk "/home/user/.sredd".toList
        ["alpha".toList, "beta".toList] []).events
      = [.checking "alpha".toList, .noNewPosts, .blankLine,
          .checking "beta".toList, .invoke ["https://u".toList]] ∧
    Event.pause ∉ (runMain fetchTwo execOk "/home/user/.sredd".toList
        ["alpha".toList, "beta".toList] []).events :=
  ⟨by decide, by decide⟩

/-! ### Lemmas: pause discipline of the feed loop -/

theorem pABC_checking (n : Str) (l : List Event) :
    pauseAlwaysBeforeChecking (.checking n :: l) = pauseAlwaysBeforeChecking l := rfl

theorem pABC_noNewPosts (l : List Event) :
    pauseAlwaysBeforeChecking (.noNewPosts :: l) = pauseAlwaysBeforeChecking l := rfl

theorem pABC_blankLine (l : List Event) :
    pauseAlwaysBeforeChecking (.blankLine :: l) = pauseAlwaysBeforeChecking l := rfl

theorem pABC_invoke (us : List Str) (l : List Event) :
    pauseAlwaysBeforeChecking (.invoke us :: l) = pauseAlwaysBeforeChecking l := rfl

theorem pABC_pause_checking (n : Str) (l : List Event) :
    pauseAlwaysBeforeChecking (.pause :: .checking n :: l)
      = pauseAlwaysBeforeChecking (.checking n :: l) := rfl

theorem mainLoop_events_head (fetch : Str → Except Str (List Str))
    (execCmd : List Str → Except Str Unit) (dir name : Str) (rest : List Str)
    (fs : FS) :
    ∃ t, (mainLoop fetch execCmd dir (name :: rest) fs).events
      = .checking name :: t := by
  rw [mainLoop]
  cases hf : fetch name with
  | error e => exact ⟨_, rfl⟩
  | ok urls =>
      dsimp only
      by_cases h1 : (checkNew (fsRead fs (logPath dir name)) urls).1 = []
      · rw [if_pos h1]
        by_cases h2 : rest = []
        · rw [if_pos h2]; exact ⟨_, rfl⟩
        · rw [if_neg h2]; exact ⟨_, rfl⟩
      · rw [if_neg h1]
        cases he : execCmd (checkNew (fsRead fs (logPath dir name)) urls).1 with
        | error e => exact ⟨_, rfl⟩
        | ok u =>
            dsimp only
            by_cases h2 : rest = []
            · rw [if_pos h2]; exact ⟨_, rfl⟩
            · rw [if_neg h2]; exact ⟨_, rfl⟩

theorem pABC_mainLoop (fetch : Str → Except Str (List Str))
    (execCmd : List Str → Except Str Unit) (dir : Str) :
    ∀ (subs : List Str) (fs : FS),
      pauseAlwaysBeforeChecking (mainLoop fetch execCmd dir subs fs).events
        = true := by
  intro subs
  induction subs with
  | nil => intro fs; rfl
  | cons name rest ih =>
      intro fs
      rw [mainLoop]
      cases hf : fetch name with
      | error e => rfl
      | ok urls =>
          dsimp only
          by_cases h1 : (checkNew (fsRead fs (logPath dir name)) urls).1 = []
          · rw [if_pos h1]
            by_cases h2 : rest = []
            · rw [if_pos h2]
              dsimp only
              rw [pABC_checking, pABC_noNewPosts]
              exact ih _
            · rw [if_neg h2]
              dsimp only
              rw [pABC_checking, pABC_noNewPosts, pABC_blankLine]
              exact ih _
          · rw [if_neg h1]
            cases he : execCmd (checkNew (fsRead fs (logPath dir name)) urls).1 with
            | error e => rfl
            | ok u =>
                dsimp only
                by_cases h2 : rest = []
                · rw [if_pos h2]; rfl
                · rw [if_neg h2]
                  obtain ⟨nm, rest', rfl⟩ : ∃ nm rest', rest = nm :: rest' := by
                    cases rest with
                    | nil => exact absurd rfl h2
                    | cons a b => exact ⟨a, b, rfl⟩
                  obtain ⟨t, ht⟩ := mainLoop_events_head fetch execCmd dir nm
                    rest' (fsWrite fs (logPath dir name)
                      (checkNew (fsRead fs (logPath dir name)) urls).2)
                  dsimp only
                  rw [pABC_checking, pABC_invoke, ht, pABC_pause_checking, ← ht]
                  exact ih _

/-- C8: in every run, each pause event is immediately followed by the
checking of a further feed — so the orchestrator never enters the pausing
state after processing the last feed, whatever that feed's outcome. -/
theorem no_pause_after_last_feed (fetch : Str → Except Str (List Str))
    (execCmd : List Str → Except Str Unit) (dir : Str)
    (subreddits : List Str) (fs : FS) :
    pauseAlwaysBeforeChecking
      (runMain fetch execCmd dir subreddits fs).events = true :=
  pABC_mainLoop fetch execCmd dir subreddits fs

end Sredd
